import Mathlib

/-!
Verification development for the FilingExplorer MCP settings application.

The core under verification is the configuration discovery, installation and
status-reconciliation engine: JSON host-configuration documents, the
credentials store, the registrar (install / install_all / is_installed) and
the status aggregator, together with the presentation-layer predicates that
consume the status snapshot (status panel, token-validation states, path
shortening).  Components whose implementation is the Svelte UI are translated
directly from that code; components of the Rust core are modelled from the
specification and are marked as such in their doc comments.
-/

/-- A JSON value: the generic ordered tagged tree used by host-configuration
documents.  Objects are ordered association lists so that unrelated keys are
preserved in order. -/
inductive JsonVal : Type where
  | null : JsonVal
  | bool (b : Bool) : JsonVal
  | num (n : Int) : JsonVal
  | str (s : String) : JsonVal
  | arr (xs : List JsonVal) : JsonVal
  | obj (fields : List (String × JsonVal)) : JsonVal
deriving Repr

/-- Look a key up in an ordered association list; first binding wins. -/
def findKey {α : Type} : List (String × α) → String → Option α
  | [], _ => none
  | (k, v) :: rest, key => if k = key then some v else findKey rest key

/-- Insert or overwrite a single key in an ordered association list,
preserving the order of all other bindings; a new key is appended. -/
def putKey {α : Type} : List (String × α) → String → α → List (String × α)
  | [], key, v => [(key, v)]
  | (k, w) :: rest, key, v =>
      if k = key then (key, v) :: rest else (k, w) :: putKey rest key v

theorem findKey_putKey_same {α : Type} (l : List (String × α)) (k : String) (v : α) :
    findKey (putKey l k v) k = some v := by
  induction l with
  | nil => simp [putKey, findKey]
  | cons hd tl ih =>
      obtain ⟨k', v'⟩ := hd
      by_cases h : k' = k
      · simp [putKey, findKey, h]
      · simp [putKey, findKey, h, ih]

theorem findKey_putKey_ne {α : Type} (l : List (String × α)) (k k' : String) (v : α)
    (h : k' ≠ k) : findKey (putKey l k v) k' = findKey l k' := by
  induction l with
  | nil =>
      have hk : ¬ (k = k') := fun hh => h hh.symm
      simp [putKey, findKey, hk]
  | cons hd tl ih =>
      obtain ⟨k₀, v₀⟩ := hd
      by_cases h0 : k₀ = k
      · subst h0
        have hk : ¬ (k₀ = k') := fun hh => h hh.symm
        simp [putKey, findKey, hk]
      · simp [putKey, findKey, h0, ih]

theorem putKey_idem {α : Type} (l : List (String × α)) (k : String) (v : α) :
    putKey (putKey l k v) k v = putKey l k v := by
  induction l with
  | nil => simp [putKey]
  | cons hd tl ih =>
      obtain ⟨k₀, v₀⟩ := hd
      by_cases h : k₀ = k
      · simp [putKey, h]
      · simp [putKey, h, ih]

/-- The registration entry this tool writes under its reserved server name:
an absolute command path plus an argument list. -/
structure RegEntry : Type where
  command : String
  args : List String
deriving Repr

/-- The reserved top-level key holding the nested server registry in a host
configuration document (the `mcpServers` object of a Claude configuration
file). -/
def serversKey : String := "mcpServers"

/-- Encode a registration entry as the JSON object
`\x7b "command": <path>, "args": [...] \x7d` written into host files. -/
def encodeEntry (e : RegEntry) : JsonVal :=
  .obj [("command", .str e.command), ("args", .arr (e.args.map .str))]

/-- Decode a JSON array as a list of strings; any non-string element fails. -/
def decodeStrList : List JsonVal → Option (List String)
  | [] => some []
  | .str s :: rest => (decodeStrList rest).map (fun tl => s :: tl)
  | _ :: _ => none

/-- Decode a JSON value as a registration entry; anything not of the shape
`\x7b "command": string, "args": array-of-strings \x7d` yields `none`. -/
def decodeEntry : JsonVal → Option RegEntry
  | .obj fields =>
      match findKey fields "command", findKey fields "args" with
      | some (.str c), some (.arr xs) =>
          (decodeStrList xs).map (fun as => ⟨c, as⟩)
      | _, _ => none
  | _ => none

/-- Modelled from the spec: `HostConfigDocument.get_registration` of the Rust
core (the core crate is not part of the shipped sources; only its UI callers
are).  Looks the reserved server name up inside the nested server-mapping;
an absent mapping, an absent key or a malformed entry yields `none`, not an
error.  A document is its ordered list of top-level fields. -/
def get_registration (fields : List (String × JsonVal)) (name : String) :
    Option RegEntry :=
  match findKey fields serversKey with
  | some (.obj servers) =>
      match findKey servers name with
      | some v => decodeEntry v
      | none => none
  | _ => none

/-- Modelled from the spec: `HostConfigDocument.set_registration` of the Rust
core.  Inserts or overwrites only the single key for `name` inside the nested
server-mapping, creating that mapping if absent; all other keys at every
level are left untouched. -/
def set_registration (fields : List (String × JsonVal)) (name : String)
    (e : RegEntry) : List (String × JsonVal) :=
  match findKey fields serversKey with
  | some (.obj servers) =>
      putKey fields serversKey (.obj (putKey servers name (encodeEntry e)))
  | _ =>
      putKey fields serversKey (.obj [(name, encodeEntry e)])

/-- The observable state of one path of the filesystem, at the granularity
the core distinguishes: the file is absent, is present but not parseable as a
JSON object, or parses to a document with the given top-level fields. -/
inductive FileState : Type where
  | absent : FileState
  | malformed : FileState
  | doc (fields : List (String × JsonVal)) : FileState
deriving Repr

/-- A value-level filesystem: an association of paths to file states. -/
def FSys : Type := List (String × FileState)

/-- Read the state of a path; a path with no binding is absent. -/
def FSys.stateAt (fs : FSys) (p : String) : FileState :=
  (findKey fs p).getD .absent

/-- Replace the state of a path. -/
def FSys.put (fs : FSys) (p : String) (s : FileState) : FSys :=
  putKey fs p s

/-- The per-target error taxonomy of the core that the claims exercise: a
host file that exists but cannot be parsed is surfaced as a malformed
document naming the file path, never silently replaced. -/
inductive CoreError : Type where
  | malformedDocument (path : String) : CoreError
deriving Repr, DecidableEq

/-- Modelled from the spec: `HostConfigDocument.load` of the Rust core.  An
absent file yields an empty document (the common not-yet-configured case);
a malformed file is a surfaced error, never silently replaced. -/
def loadDoc (fs : FSys) (p : String) :
    Except CoreError (List (String × JsonVal)) :=
  match FSys.stateAt fs p with
  | .absent => .ok []
  | .malformed => .error (.malformedDocument p)
  | .doc fields => .ok fields

/-- One host-configuration location, as enumerated by the host locator. -/
structure HostTarget : Type where
  kind : String
  label : String
  path : String
deriving Repr

/-- The registration entry the registrar computes for the current executable
path: the absolute command path with an empty argument list. -/
def regEntryFor (exe : String) : RegEntry := ⟨exe, []⟩

/-- Modelled from the spec: `Registrar.install` of the Rust core.  Resolves
the registration entry for the executable, loads the target's document
(creating an empty one if the file is absent), sets the registration and
saves; a malformed existing file is a surfaced per-target error and the
filesystem is left unchanged. -/
def install (exe name : String) (fs : FSys) (t : HostTarget) :
    Except CoreError FSys :=
  match loadDoc fs t.path with
  | .error e => .error e
  | .ok fields =>
      .ok (FSys.put fs t.path (.doc (set_registration fields name (regEntryFor exe))))

/-- Modelled from the spec: `Registrar.install_all` of the Rust core.
Applies `install` independently to every target in order; a failure on one
target does not prevent attempts on the others, and per-target outcomes are
collected alongside the final filesystem. -/
def install_all (exe name : String) :
    FSys → List HostTarget → FSys × List (HostTarget × Except CoreError Unit)
  | fs, [] => (fs, [])
  | fs, t :: ts =>
      match install exe name fs t with
      | .ok fs' =>
          ((install_all exe name fs' ts).1,
           (t, .ok ()) :: (install_all exe name fs' ts).2)
      | .error e =>
          ((install_all exe name fs ts).1,
           (t, .error e) :: (install_all exe name fs ts).2)

/-- The local credentials record: token and user-agent identity fields, all
optional (shape taken from the repository README's `config.json` example). -/
structure Credentials : Type where
  api_token : Option String
  sec_user_agent_name : Option String
  sec_user_agent_email : Option String
deriving Repr, DecidableEq

/-- Serialize one optional string field: unset fields are written as JSON
null. -/
def optStrVal : Option String → JsonVal
  | none => .null
  | some s => .str s

/-- The fixed per-user path of the credentials file (from the README's
manual-setup instructions). -/
def credentialsPath : String :=
  "~/Library/Application Support/com.filingexplorer.mcp/config.json"

/-- Serialize a credentials record as the top-level fields of its JSON
file. -/
def credFields (c : Credentials) : List (String × JsonVal) :=
  [("api_token", optStrVal c.api_token),
   ("sec_user_agent_name", optStrVal c.sec_user_agent_name),
   ("sec_user_agent_email", optStrVal c.sec_user_agent_email)]

/-- Decode one optional string field: an absent or null field is unset, a
string is set, any other value is a corrupt file. -/
def decodeOptStr : Option JsonVal → Option (Option String)
  | none => some none
  | some .null => some none
  | some (.str s) => some (some s)
  | some _ => none

/-- Decode the top-level fields of the credentials file back into a
credentials record; `none` means the file is corrupt. -/
def decodeCredentials (fields : List (String × JsonVal)) : Option Credentials :=
  match decodeOptStr (findKey fields "api_token"),
        decodeOptStr (findKey fields "sec_user_agent_name"),
        decodeOptStr (findKey fields "sec_user_agent_email") with
  | some a, some n, some e => some ⟨a, n, e⟩
  | _, _, _ => none

/-- Modelled from the spec: `ConfigStore.save` of the Rust core.  Serializes
the full credentials record and writes it (atomically) at the fixed path. -/
def ConfigStore.save (fs : FSys) (c : Credentials) : FSys :=
  FSys.put fs credentialsPath (.doc (credFields c))

/-- Modelled from the spec: `ConfigStore.load` of the Rust core.  An absent
file yields an all-unset record (not an error); a file that is present but
unreadable is surfaced, never silently reset. -/
def ConfigStore.load (fs : FSys) : Except CoreError Credentials :=
  match FSys.stateAt fs credentialsPath with
  | .absent => .ok ⟨none, none, none⟩
  | .malformed => .error (.malformedDocument credentialsPath)
  | .doc fields =>
      match decodeCredentials fields with
      | some c => .ok c
      | none => .error (.malformedDocument credentialsPath)

/-- The per-target component of a status snapshot: whether the target's host
file carries a registration, the recorded server path, and whether that path
exists on disk. -/
structure TargetStatus : Type where
  configured : Bool
  config_path : String
  server_path : Option String
  server_path_exists : Bool
deriving Repr

/-- Modelled from the spec: `Registrar.is_installed` of the Rust core.  A
read-only query: loads the target's document, looks the registration up, and
separately checks filesystem existence of the recorded command path
(`bins` is the binary-existence view of the disk). -/
def is_installed (bins : String → Bool) (fs : FSys) (name : String)
    (t : HostTarget) : TargetStatus :=
  match loadDoc fs t.path with
  | .error _ => ⟨false, t.path, none, false⟩
  | .ok fields =>
      match get_registration fields name with
      | some e => ⟨true, t.path, some e.command, bins e.command⟩
      | none => ⟨false, t.path, none, false⟩

/-- The status payload consumed by the status panel, with the fields the UI
reads from `StatusResponse` (`src/crates/settings-app/ui`). -/
structure StatusResponse : Type where
  claude_desktop_configured : Bool
  claude_code_configured : Bool
  mcp_server_exists : Bool
  api_token_set : Bool
deriving Repr, DecidableEq

/-- Modelled from the spec: the status aggregator's snapshot over the two
host targets (desktop, code-global).  Per-target configured flags are taken
from `is_installed`; the single `mcp_server_exists` flag is the AND of
`server_path_exists` over whichever targets report installed. -/
def snapshotResponse (bins : String → Bool) (fs : FSys) (name : String)
    (tdesk tcode : HostTarget) (tokenSet : Bool) : StatusResponse :=
  let d := is_installed bins fs name tdesk
  let c := is_installed bins fs name tcode
  { claude_desktop_configured := d.configured
    claude_code_configured := c.configured
    mcp_server_exists :=
      (!d.configured || d.server_path_exists) &&
      (!c.configured || c.server_path_exists)
    api_token_set := tokenSet }

/-- The status panel's overall readiness flag, translated from
`src/unnamed/part_001` lines 6–10:
`(claude_desktop_configured || claude_code_configured) && mcp_server_exists
&& api_token_set`. -/
def allConfigured (s : StatusResponse) : Bool :=
  (s.claude_desktop_configured || s.claude_code_configured) &&
    s.mcp_server_exists && s.api_token_set

/-- The status panel's header title, translated from `src/unnamed/part_001`
line 28: `Ready` when everything is configured, `Setup Required`
otherwise. -/
def statusTitle (s : StatusResponse) : String :=
  if allConfigured s then "Ready" else "Setup Required"

/-- The `ok` condition of the Claude status item, translated from
`src/unnamed/part_001` lines 36–41. -/
def claudeItemOk (s : StatusResponse) : Bool :=
  (s.claude_desktop_configured || s.claude_code_configured) &&
    s.mcp_server_exists

/-- The condition under which the status panel surfaces its warning line,
translated from `src/unnamed/part_001` line 44. -/
def statusWarningShown (s : StatusResponse) : Bool :=
  (s.claude_desktop_configured || s.claude_code_configured) &&
    !s.mcp_server_exists

/-- The warning text surfaced when a registration points at a missing
binary (`src/unnamed/part_001` line 45). -/
def statusWarningText : String :=
  "MCP server binary not found at configured path"

/-- The legacy status payload read by `App.svelte`. -/
structure LegacyStatusResponse : Type where
  claude_configured : Bool
  mcp_server_exists : Bool
  api_token_set : Bool
  sec_email_set : Bool
deriving Repr, DecidableEq

/-- The legacy readiness flag, translated from `App.svelte` line 114:
`claude_configured && mcp_server_exists && api_token_set &&
sec_email_set`. -/
def legacyAllConfigured (s : LegacyStatusResponse) : Bool :=
  s.claude_configured && s.mcp_server_exists && s.api_token_set &&
    s.sec_email_set

/-- The five token-validation states of the settings UI
(`ApiTokenInput.svelte`). -/
inductive TokenValidationStatus : Type where
  | idle
  | validating
  | valid
  | invalid
  | error
deriving Repr, DecidableEq

/-- The outcome of one credential-validation call against the remote
boundary: the call completed with a success flag, or it failed to complete
(threw). -/
inductive CallOutcome : Type where
  | completed (success : Bool) : CallOutcome
  | threw : CallOutcome
deriving Repr, DecidableEq

/-- The final token-validation state after one completed run of
`debouncedValidate` (`ApiTokenInput.svelte` lines 19–31): too-short or empty
tokens go idle without calling out; otherwise the external call's outcome is
mapped onto valid / invalid / error. -/
def debouncedValidate (token : String) (call : CallOutcome) :
    TokenValidationStatus :=
  if token = "" ∨ token.length < 10 then .idle
  else
    match call with
    | .completed true => .valid
    | .completed false => .invalid
    | .threw => .error

/-- The user-visible validation message rendered for each token-validation
state (`ApiTokenInput.svelte` lines 74–80); quiet states render nothing. -/
def validationMsg : TokenValidationStatus → Option String
  | .invalid => some "Invalid API token"
  | .error => some "Could not validate token"
  | .valid => some "Token is valid"
  | .idle => none
  | .validating => none

/-- Character class `[^/]` of the home-directory regexes in
`src/unnamed/part_003`. -/
def nonSlash (c : Char) : Bool := c ≠ '/'

/-- Whether the first list is a leading segment of the second (the anchored
part of a `^...` regex match). -/
def leadsWith : List Char → List Char → Bool
  | [], _ => true
  | _ :: _, [] => false
  | c :: cs, d :: ds => if c = d then leadsWith cs ds else false

/-- The literal part of the `^\/Users\/[^/]+` regex. -/
def usersMarker : List Char := "/Users/".toList

/-- The literal part of the `^\/home\/[^/]+` regex. -/
def homeMarker : List Char := "/home/".toList

/-- Matching `^<marker>[^/]+` against a path: the result is the matched
text — the marker followed by the maximal nonempty run of non-slash
characters — or `none` when the regex does not match. -/
def homeMatch (marker path : List Char) : Option (List Char) :=
  if leadsWith marker path then
    let seg := (path.drop marker.length).takeWhile nonSlash
    if seg = [] then none else some (marker ++ seg)
  else none

/-- JavaScript `String.replace` with a plain-string pattern: replaces the
first occurrence of `pat` (if any) by `rep`. -/
def replaceFirst (pat rep : List Char) : List Char → List Char
  | [] => if pat = [] then rep else []
  | c :: cs =>
      if leadsWith pat (c :: cs) then rep ++ (c :: cs).drop pat.length
      else c :: replaceFirst pat rep cs

/-- `shortenPath`, translated from `src/unnamed/part_003` lines 149–155:
the first of the two home-directory regexes that matches has its match
replaced by `~`; otherwise the path is returned unchanged. -/
def shortenPath (path : List Char) : List Char :=
  match homeMatch usersMarker path with
  | some home => replaceFirst home ['~'] path
  | none =>
      match homeMatch homeMarker path with
      | some home => replaceFirst home ['~'] path
      | none => path

/-- A byte-level filesystem for the write-protocol model: paths bound to
`none` are absent, others hold their byte contents. -/
def RawFSys : Type := List (String × Option (List Nat))

/-- Read the contents of a path of the byte-level filesystem. -/
def RawFSys.read (fs : RawFSys) (p : String) : Option (List Nat) :=
  (findKey fs p).getD none

/-- Modelled from the spec: the intermediate filesystem states while the
core streams `data` into the scoped temporary file, one per number of bytes
written so far.  The target path is not touched during this phase. -/
def tempStates (fs : RawFSys) (tmp : String) (data : List Nat) : List RawFSys :=
  (List.range (data.length + 1)).map (fun i => putKey fs tmp (some (data.take i)))

/-- Modelled from the spec: the final filesystem state of an atomic save.
On success the temporary file is renamed over the target in one step; on a
failure at any point the temporary file is discarded and the target is not
touched. -/
def atomicFinal (fs : RawFSys) (target tmp : String) (data : List Nat)
    (failAt : Option Nat) : RawFSys :=
  match failAt with
  | none => putKey (putKey fs tmp none) target (some data)
  | some _ => putKey fs tmp none

/-- Modelled from the spec: every filesystem state a concurrent reader could
observe during one atomic save — the initial state, the temporary-file
states (cut short at `k` when the write fails after `k` steps), and the
final replace-or-discard state. -/
def atomicTrace (fs : RawFSys) (target tmp : String) (data : List Nat)
    (failAt : Option Nat) : List RawFSys :=
  match failAt with
  | none => fs :: (tempStates fs tmp data ++ [atomicFinal fs target tmp data none])
  | some k =>
      fs :: ((tempStates fs tmp data).take k ++ [atomicFinal fs target tmp data (some k)])

/-- Project the document fields out of a filesystem path; non-document
states project to the empty document. -/
def docAt (fs : FSys) (p : String) : List (String × JsonVal) :=
  match FSys.stateAt fs p with
  | .doc fields => fields
  | _ => []

/-- Project the successful filesystem out of an install result; errors
project to the empty filesystem. -/
def okD (r : Except CoreError FSys) : FSys :=
  match r with
  | .ok fs => fs
  | .error _ => []

theorem FSys.stateAt_put_same (fs : FSys) (p : String) (s : FileState) :
    FSys.stateAt (FSys.put fs p s) p = s := by
  simp [FSys.stateAt, FSys.put, findKey_putKey_same]

theorem FSys.stateAt_put_ne (fs : FSys) (p q : String) (s : FileState)
    (h : q ≠ p) : FSys.stateAt (FSys.put fs p s) q = FSys.stateAt fs q := by
  simp [FSys.stateAt, FSys.put, findKey_putKey_ne _ _ _ _ h]

theorem decodeStrList_map_str (as : List String) :
    decodeStrList (as.map .str) = some as := by
  induction as with
  | nil => simp [decodeStrList]
  | cons a tl ih => simp [decodeStrList, ih]

theorem decodeEntry_encodeEntry (e : RegEntry) :
    decodeEntry (encodeEntry e) = some e := by
  obtain ⟨c, as⟩ := e
  simp [encodeEntry, decodeEntry, findKey, decodeStrList_map_str]

theorem set_registration_idem (f : List (String × JsonVal)) (n : String)
    (e : RegEntry) :
    set_registration (set_registration f n e) n e = set_registration f n e := by
  unfold set_registration
  cases hf : findKey f serversKey with
  | none =>
      simp only [findKey_putKey_same]
      simp [putKey, putKey_idem]
  | some v =>
      cases v with
      | obj servers =>
          simp only [findKey_putKey_same]
          simp [putKey_idem]
      | null => simp only [findKey_putKey_same]; simp [putKey, putKey_idem]
      | bool b => simp only [findKey_putKey_same]; simp [putKey, putKey_idem]
      | num m => simp only [findKey_putKey_same]; simp [putKey, putKey_idem]
      | str s => simp only [findKey_putKey_same]; simp [putKey, putKey_idem]
      | arr xs => simp only [findKey_putKey_same]; simp [putKey, putKey_idem]

theorem findKey_set_registration_ne (f : List (String × JsonVal)) (n : String)
    (e : RegEntry) (k : String) (h : k ≠ serversKey) :
    findKey (set_registration f n e) k = findKey f k := by
  unfold set_registration
  cases hf : findKey f serversKey with
  | none => exact findKey_putKey_ne _ _ _ _ h
  | some v =>
      cases v <;> exact findKey_putKey_ne _ _ _ _ h

theorem get_registration_set_same (f : List (String × JsonVal)) (n : String)
    (e : RegEntry) :
    get_registration (set_registration f n e) n = some e := by
  unfold get_registration set_registration
  cases hf : findKey f serversKey with
  | none =>
      simp [findKey_putKey_same, findKey, decodeEntry_encodeEntry]
  | some v =>
      cases v with
      | obj servers =>
          simp [findKey_putKey_same, findKey_putKey_same servers,
            decodeEntry_encodeEntry]
      | null => simp [findKey_putKey_same, findKey, decodeEntry_encodeEntry]
      | bool b => simp [findKey_putKey_same, findKey, decodeEntry_encodeEntry]
      | num m => simp [findKey_putKey_same, findKey, decodeEntry_encodeEntry]
      | str s => simp [findKey_putKey_same, findKey, decodeEntry_encodeEntry]
      | arr xs => simp [findKey_putKey_same, findKey, decodeEntry_encodeEntry]

theorem get_registration_set_ne (f : List (String × JsonVal)) (n : String)
    (e : RegEntry) (m : String) (h : m ≠ n) :
    get_registration (set_registration f n e) m = get_registration f m := by
  unfold get_registration set_registration
  cases hf : findKey f serversKey with
  | none =>
      simp [findKey_putKey_same, findKey, Ne.symm h]
  | some v =>
      cases v with
      | obj servers =>
          simp [findKey_putKey_same, findKey_putKey_ne servers n m _ h]
      | null => simp [findKey_putKey_same, findKey, Ne.symm h]
      | bool b => simp [findKey_putKey_same, findKey, Ne.symm h]
      | num m' => simp [findKey_putKey_same, findKey, Ne.symm h]
      | str s => simp [findKey_putKey_same, findKey, Ne.symm h]
      | arr xs => simp [findKey_putKey_same, findKey, Ne.symm h]

theorem install_of_malformed (exe name : String) (fs : FSys) (t : HostTarget)
    (h : FSys.stateAt fs t.path = .malformed) :
    install exe name fs t = .error (.malformedDocument t.path) := by
  simp [install, loadDoc, h]

theorem install_eq_of_doc (exe name : String) (fs : FSys) (t : HostTarget)
    (fields : List (String × JsonVal))
    (h : FSys.stateAt fs t.path = .doc fields) :
    install exe name fs t =
      .ok (FSys.put fs t.path
        (.doc (set_registration fields name (regEntryFor exe)))) := by
  simp [install, loadDoc, h]

theorem install_ok_inv (exe name : String) (fs : FSys) (t : HostTarget)
    (fs₁ : FSys) (h : install exe name fs t = .ok fs₁) :
    ∃ fields, loadDoc fs t.path = .ok fields ∧
      fs₁ = FSys.put fs t.path
        (.doc (set_registration fields name (regEntryFor exe))) := by
  unfold install at h
  cases hl : loadDoc fs t.path with
  | error e => rw [hl] at h; exact absurd h (by simp)
  | ok fields =>
      rw [hl] at h
      exact ⟨fields, rfl, (Except.ok.inj h).symm⟩

theorem install_error_inv (exe name : String) (fs : FSys) (t : HostTarget)
    (e : CoreError) (h : install exe name fs t = .error e) :
    FSys.stateAt fs t.path = .malformed ∧ e = .malformedDocument t.path := by
  unfold install loadDoc at h
  cases hs : FSys.stateAt fs t.path with
  | absent => rw [hs] at h; exact absurd h (by simp)
  | doc fields => rw [hs] at h; exact absurd h (by simp)
  | malformed =>
      rw [hs] at h
      exact ⟨rfl, (Except.error.inj h).symm⟩

theorem install_ok_not_malformed (exe name : String) (fs : FSys)
    (t : HostTarget) (fs₁ : FSys) (h : install exe name fs t = .ok fs₁) :
    FSys.stateAt fs t.path ≠ .malformed := by
  intro hmal
  rw [install_of_malformed exe name fs t hmal] at h
  exact absurd h (by simp)

theorem install_ok_malformed_iff (exe name : String) (fs : FSys)
    (t : HostTarget) (fs₁ : FSys) (h : install exe name fs t = .ok fs₁)
    (p : String) :
    (FSys.stateAt fs₁ p = .malformed ↔ FSys.stateAt fs p = .malformed) := by
  obtain ⟨fields, hl, rfl⟩ := install_ok_inv exe name fs t _ h
  by_cases hp : p = t.path
  · subst hp
    rw [FSys.stateAt_put_same]
    constructor
    · intro hc; exact absurd hc (by simp)
    · intro hc; exact absurd hc (install_ok_not_malformed exe name fs t _ h)
  · rw [FSys.stateAt_put_ne fs t.path p _ hp]

theorem install_all_malformed_iff (exe name : String) :
    ∀ (ts : List HostTarget) (fs : FSys) (p : String),
      (FSys.stateAt (install_all exe name fs ts).1 p = .malformed ↔
        FSys.stateAt fs p = .malformed) := by
  intro ts
  induction ts with
  | nil => intro fs p; simp [install_all]
  | cons t ts ih =>
      intro fs p
      cases hi : install exe name fs t with
      | ok fs' =>
          simp only [install_all, hi]
          exact (ih fs' p).trans (install_ok_malformed_iff exe name fs t fs' hi p)
      | error e =>
          simp only [install_all, hi]
          exact ih fs p

/-- Claim C3: for every host target and fixed executable path, a second
`install` on the filesystem produced by a successful `install` succeeds and
yields exactly the same filesystem — hence a host configuration document
equal, at the value level for all keys, to the one produced by a single
call. -/
theorem install_idempotent (exe name : String) (fs : FSys) (t : HostTarget)
    (fs₁ : FSys) (h : install exe name fs t = .ok fs₁) :
    install exe name fs₁ t = .ok fs₁ := by
  obtain ⟨fields, hl, rfl⟩ := install_ok_inv exe name fs t _ h
  have h1 : FSys.stateAt
      (FSys.put fs t.path (.doc (set_registration fields name (regEntryFor exe))))
      t.path = .doc (set_registration fields name (regEntryFor exe)) :=
    FSys.stateAt_put_same fs t.path _
  rw [install_eq_of_doc exe name _ t _ h1, set_registration_idem]
  simp [FSys.put, putKey_idem]

/-- Witness for claim C3 at a concrete empty filesystem and target. -/
theorem install_idempotent_witness :
    install "/app/mcp" "filing-explorer"
        (okD (install "/app/mcp" "filing-explorer" []
          ⟨"desktop", "Claude Desktop", "cfg.json"⟩))
        ⟨"desktop", "Claude Desktop", "cfg.json"⟩
      = .ok (okD (install "/app/mcp" "filing-explorer" []
          ⟨"desktop", "Claude Desktop", "cfg.json"⟩)) :=
  install_idempotent "/app/mcp" "filing-explorer" []
    ⟨"desktop", "Claude Desktop", "cfg.json"⟩ _ rfl

/-- Claim C5: `install` (which calls `set_registration` then saves) changes
only the reserved server key of the target document: every unrelated
top-level key and every unrelated server entry keeps its value, the new
registration is present, and every other filesystem path is untouched. -/
theorem install_preserves_unrelated (exe name : String) (fs : FSys)
    (t : HostTarget) (fields : List (String × JsonVal)) (fs₁ : FSys)
    (hdoc : FSys.stateAt fs t.path = .doc fields)
    (hinst : install exe name fs t = .ok fs₁) :
    (∀ k, k ≠ serversKey → findKey (docAt fs₁ t.path) k = findKey fields k) ∧
    (∀ m, m ≠ name →
      get_registration (docAt fs₁ t.path) m = get_registration fields m) ∧
    (get_registration (docAt fs₁ t.path) name = some (regEntryFor exe)) ∧
    (∀ p, p ≠ t.path → FSys.stateAt fs₁ p = FSys.stateAt fs p) := by
  rw [install_eq_of_doc exe name fs t fields hdoc] at hinst
  obtain rfl := (Except.ok.inj hinst).symm
  have hAt : docAt
      (FSys.put fs t.path (.doc (set_registration fields name (regEntryFor exe))))
      t.path = set_registration fields name (regEntryFor exe) := by
    simp [docAt, FSys.stateAt_put_same]
  rw [hAt]
  refine ⟨?_, ?_, ?_, ?_⟩
  · intro k hk; exact findKey_set_registration_ne fields name _ k hk
  · intro m hm; exact get_registration_set_ne fields name _ m hm
  · exact get_registration_set_same fields name _
  · intro p hp; exact FSys.stateAt_put_ne fs t.path p _ hp

/-- Witness for claim C5: a document with an unrelated top-level key and an
unrelated server entry keeps both across an install. -/
theorem install_preserves_unrelated_witness :
    findKey (docAt (okD (install "/app/mcp" "fe"
        [("cfg", .doc [("theme", .str "dark"),
          ("mcpServers", .obj [("other",
            .obj [("command", .str "/bin/o"), ("args", .arr [])])])])]
        ⟨"desktop", "Claude Desktop", "cfg"⟩)) "cfg") "theme"
      = some (.str "dark") ∧
    get_registration (docAt (okD (install "/app/mcp" "fe"
        [("cfg", .doc [("theme", .str "dark"),
          ("mcpServers", .obj [("other",
            .obj [("command", .str "/bin/o"), ("args", .arr [])])])])]
        ⟨"desktop", "Claude Desktop", "cfg"⟩)) "cfg") "other"
      = some ⟨"/bin/o", []⟩ := by
  have h := install_preserves_unrelated "/app/mcp" "fe"
    [("cfg", .doc [("theme", .str "dark"),
      ("mcpServers", .obj [("other",
        .obj [("command", .str "/bin/o"), ("args", .arr [])])])])]
    ⟨"desktop", "Claude Desktop", "cfg"⟩
    [("theme", .str "dark"),
      ("mcpServers", .obj [("other",
        .obj [("command", .str "/bin/o"), ("args", .arr [])])])]
    _ rfl rfl
  exact ⟨(h.1 "theme" (by decide)).trans rfl,
         (h.2.1 "other" (by decide)).trans rfl⟩

/-- Claim C4: `install_all` attempts every target independently and in
order; a target whose existing file is malformed gets a per-target
`malformedDocument` failure naming its path and the file is never modified
(it is still malformed, hence untouched, in the final filesystem), while
every target whose file is well-formed gets a per-target success — a failure
on one target never prevents attempts on the others. -/
theorem install_all_isolates (exe name : String) (ts : List HostTarget) :
    ∀ (fs : FSys),
      ((install_all exe name fs ts).2.map Prod.fst = ts) ∧
      (∀ tr ∈ (install_all exe name fs ts).2,
        (FSys.stateAt fs tr.1.path = .malformed →
          tr.2 = .error (.malformedDocument tr.1.path) ∧
          FSys.stateAt (install_all exe name fs ts).1 tr.1.path = .malformed) ∧
        (FSys.stateAt fs tr.1.path ≠ .malformed → tr.2 = .ok ())) := by
  induction ts with
  | nil => intro fs; simp [install_all]
  | cons t ts ih =>
      intro fs
      cases hi : install exe name fs t with
      | ok fs' =>
          have hnm : FSys.stateAt fs t.path ≠ .malformed :=
            install_ok_not_malformed exe name fs t fs' hi
          have hiff := install_ok_malformed_iff exe name fs t fs' hi
          constructor
          · simp only [install_all, hi, List.map_cons]
            rw [(ih fs').1]
          · intro tr htr
            simp only [install_all, hi, List.mem_cons] at htr
            cases htr with
            | inl hh =>
                subst hh
                refine ⟨fun hmal => absurd hmal hnm, fun _ => rfl⟩
            | inr hh =>
                have h2 := (ih fs').2 tr hh
                constructor
                · intro hmal
                  obtain ⟨he, hfin⟩ := h2.1 ((hiff tr.1.path).mpr hmal)
                  refine ⟨he, ?_⟩
                  simpa [install_all, hi] using hfin
                · intro hok
                  exact h2.2 (fun hc => hok ((hiff tr.1.path).mp hc))
      | error e =>
          obtain ⟨hmal, rfl⟩ := install_error_inv exe name fs t e hi
          have hiff := install_all_malformed_iff exe name ts fs
          constructor
          · simp only [install_all, hi, List.map_cons]
            rw [(ih fs).1]
          · intro tr htr
            simp only [install_all, hi, List.mem_cons] at htr
            cases htr with
            | inl hh =>
                subst hh
                refine ⟨fun _ => ⟨rfl, ?_⟩, fun hok => absurd hmal hok⟩
                simp only [install_all, hi]
                exact (hiff t.path).mpr hmal
            | inr hh =>
                have h2 := (ih fs).2 tr hh
                constructor
                · intro hm2
                  obtain ⟨he, hfin⟩ := h2.1 hm2
                  refine ⟨he, ?_⟩
                  simpa [install_all, hi] using hfin
                · exact h2.2

/-- Witness for claim C4: of two targets where the first file is malformed
and the second is absent, the first reports a malformed-document failure and
stays malformed while the second is still attempted and succeeds. -/
theorem install_all_isolates_witness :
    ((install_all "/app/mcp" "fe" [("a", FileState.malformed)]
        [⟨"desktop", "Claude Desktop", "a"⟩, ⟨"code", "Claude Code", "b"⟩]).2.map
        Prod.fst
      = [⟨"desktop", "Claude Desktop", "a"⟩, ⟨"code", "Claude Code", "b"⟩]) ∧
    FSys.stateAt (install_all "/app/mcp" "fe" [("a", FileState.malformed)]
        [⟨"desktop", "Claude Desktop", "a"⟩, ⟨"code", "Claude Code", "b"⟩]).1 "a"
      = FileState.malformed := by
  have h := install_all_isolates "/app/mcp" "fe"
    [⟨"desktop", "Claude Desktop", "a"⟩, ⟨"code", "Claude Code", "b"⟩]
    [("a", FileState.malformed)]
  refine ⟨h.1, ?_⟩
  have hmem : ((⟨"desktop", "Claude Desktop", "a"⟩, Except.error
      (CoreError.malformedDocument "a")) :
        HostTarget × Except CoreError Unit) ∈
      (install_all "/app/mcp" "fe" [("a", FileState.malformed)]
        [⟨"desktop", "Claude Desktop", "a"⟩, ⟨"code", "Claude Code", "b"⟩]).2 :=
    List.Mem.head _
  exact ((h.2 _ hmem).1 rfl).2

theorem decodeOptStr_optStrVal (x : Option String) :
    decodeOptStr (some (optStrVal x)) = some x := by
  cases x <;> rfl

/-- Claim C7: saving a credentials record and loading it back returns the
record that was saved, and saving a host-configuration document and loading
it back returns the document that was saved. -/
theorem save_load_roundtrip :
    (∀ (fs : FSys) (c : Credentials),
        ConfigStore.load (ConfigStore.save fs c) = .ok c) ∧
    (∀ (fs : FSys) (p : String) (fields : List (String × JsonVal)),
        loadDoc (FSys.put fs p (.doc fields)) p = .ok fields) := by
  constructor
  · intro fs c
    obtain ⟨a, n, e⟩ := c
    simp only [ConfigStore.save, ConfigStore.load, FSys.stateAt_put_same]
    simp [decodeCredentials, credFields, findKey, decodeOptStr_optStrVal]
  · intro fs p fields
    simp [loadDoc, FSys.stateAt_put_same]

theorem read_putKey_other (fs : RawFSys) (p q : String) (v : Option (List Nat))
    (h : q ≠ p) : RawFSys.read (putKey fs p v) q = RawFSys.read fs q := by
  simp [RawFSys.read, findKey_putKey_ne _ _ _ _ h]

/-- Claim C6: the modelled write protocol (stream into a scoped temporary
file, then atomically rename over the target, or discard the temporary on
failure) never exposes a half-written target to a reader — every observable
state of the trace shows the target with its old contents or with the
complete new contents — and a write that fails after any number of steps
leaves the original target untouched and discards the temporary file. -/
theorem atomic_save_protocol (fs : RawFSys) (target tmp : String)
    (data : List Nat) (failAt : Option Nat) (hne : tmp ≠ target) :
    (∀ s ∈ atomicTrace fs target tmp data failAt,
        RawFSys.read s target = RawFSys.read fs target ∨
        RawFSys.read s target = some data) ∧
    (∀ k, failAt = some k →
        RawFSys.read (atomicFinal fs target tmp data failAt) target =
          RawFSys.read fs target ∧
        RawFSys.read (atomicFinal fs target tmp data failAt) tmp = none) ∧
    (failAt = none →
        RawFSys.read (atomicFinal fs target tmp data none) target =
          some data) := by
  have hrt : ∀ v, RawFSys.read (putKey fs tmp v) target = RawFSys.read fs target :=
    fun v => read_putKey_other fs tmp target v (Ne.symm hne)
  have hfinN : RawFSys.read (atomicFinal fs target tmp data none) target =
      some data := by
    simp [atomicFinal, RawFSys.read, findKey_putKey_same]
  refine ⟨?_, ?_, fun _ => hfinN⟩
  · intro s hs
    cases failAt with
    | none =>
        rcases List.mem_cons.mp hs with rfl | hs2
        · exact Or.inl rfl
        rcases List.mem_append.mp hs2 with hs3 | hs4
        · have hs3' : ∃ i, i < data.length + 1 ∧
              putKey fs tmp (some (List.take i data)) = s := by
            simpa [tempStates, List.mem_map] using hs3
          obtain ⟨i, -, rfl⟩ := hs3'
          exact Or.inl (hrt _)
        · rcases List.mem_singleton.mp hs4 with rfl
          exact Or.inr hfinN
    | some k =>
        rcases List.mem_cons.mp hs with rfl | hs2
        · exact Or.inl rfl
        rcases List.mem_append.mp hs2 with hs3 | hs4
        · have hs5 := List.take_subset k _ hs3
          have hs5' : ∃ i, i < data.length + 1 ∧
              putKey fs tmp (some (List.take i data)) = s := by
            simpa [tempStates, List.mem_map] using hs5
          obtain ⟨i, -, rfl⟩ := hs5'
          exact Or.inl (hrt _)
        · rcases List.mem_singleton.mp hs4 with rfl
          exact Or.inl (hrt _)
  · intro k hk
    subst hk
    refine ⟨hrt _, ?_⟩
    simp [atomicFinal, RawFSys.read, findKey_putKey_same]

/-- Witness for claim C6: a write of two bytes that fails after one step
leaves the original one-byte target intact and no temporary file behind. -/
theorem atomic_save_protocol_witness :
    RawFSys.read (atomicFinal [("f", some [9])] "f" "f.tmp" [1, 2] (some 1)) "f"
      = RawFSys.read [("f", some [9])] "f" ∧
    RawFSys.read (atomicFinal [("f", some [9])] "f" "f.tmp" [1, 2] (some 1)) "f.tmp"
      = none :=
  (atomic_save_protocol [("f", some [9])] "f" "f.tmp" [1, 2] (some 1)
    (by decide)).2.1 1 rfl

/-- Claim C1: when some host target's file carries a registration entry
whose recorded command path does not exist on disk, the snapshot reports
that target installed (configured = true) with `server_path_exists = false`,
the status panel is not in its `Ready` state, and the distinct warning line
(`MCP server binary not found at configured path`) is surfaced while the
per-target configured flags still show a registration — the state is
collapsed into neither `Ready` nor not-set-up. -/
theorem snapshot_broken_binary (bins : String → Bool) (fs : FSys)
    (name : String) (tdesk tcode t : HostTarget) (tokenSet : Bool)
    (fields : List (String × JsonVal)) (e : RegEntry)
    (ht : t = tdesk ∨ t = tcode)
    (hdoc : FSys.stateAt fs t.path = .doc fields)
    (hreg : get_registration fields name = some e)
    (hbin : bins e.command = false) :
    (is_installed bins fs name t).configured = true ∧
    (is_installed bins fs name t).server_path_exists = false ∧
    allConfigured (snapshotResponse bins fs name tdesk tcode tokenSet) = false ∧
    statusTitle (snapshotResponse bins fs name tdesk tcode tokenSet) =
      "Setup Required" ∧
    statusTitle (snapshotResponse bins fs name tdesk tcode tokenSet) ≠ "Ready" ∧
    statusWarningShown (snapshotResponse bins fs name tdesk tcode tokenSet) =
      true ∧
    ((snapshotResponse bins fs name tdesk tcode tokenSet).claude_desktop_configured ||
      (snapshotResponse bins fs name tdesk tcode tokenSet).claude_code_configured) =
      true := by
  have hinst : is_installed bins fs name t =
      ⟨true, t.path, some e.command, false⟩ := by
    simp [is_installed, loadDoc, hdoc, hreg, hbin]
  rcases ht with rfl | rfl
  · refine ⟨by rw [hinst], by rw [hinst], ?_, ?_, ?_, ?_, ?_⟩ <;>
      simp [snapshotResponse, allConfigured, statusTitle, statusWarningShown,
        hinst]
  · refine ⟨by rw [hinst], by rw [hinst], ?_, ?_, ?_, ?_, ?_⟩ <;>
      simp [snapshotResponse, allConfigured, statusTitle, statusWarningShown,
        hinst]

/-- Witness for claim C1 at a concrete filesystem whose desktop host file
registers a command that does not exist on disk. -/
theorem snapshot_broken_binary_witness :
    (is_installed (fun _ => false)
        [("cfg", .doc [("mcpServers", .obj [("fe",
            .obj [("command", .str "/bin/mcp"), ("args", .arr [])])])])]
        "fe" ⟨"desktop", "Claude Desktop", "cfg"⟩).configured = true ∧
    (is_installed (fun _ => false)
        [("cfg", .doc [("mcpServers", .obj [("fe",
            .obj [("command", .str "/bin/mcp"), ("args", .arr [])])])])]
        "fe" ⟨"desktop", "Claude Desktop", "cfg"⟩).server_path_exists = false ∧
    allConfigured (snapshotResponse (fun _ => false)
        [("cfg", .doc [("mcpServers", .obj [("fe",
            .obj [("command", .str "/bin/mcp"), ("args", .arr [])])])])]
        "fe" ⟨"desktop", "Claude Desktop", "cfg"⟩
        ⟨"code", "Claude Code", "claude.json"⟩ true) = false ∧
    statusTitle (snapshotResponse (fun _ => false)
        [("cfg", .doc [("mcpServers", .obj [("fe",
            .obj [("command", .str "/bin/mcp"), ("args", .arr [])])])])]
        "fe" ⟨"desktop", "Claude Desktop", "cfg"⟩
        ⟨"code", "Claude Code", "claude.json"⟩ true) = "Setup Required" ∧
    statusTitle (snapshotResponse (fun _ => false)
        [("cfg", .doc [("mcpServers", .obj [("fe",
            .obj [("command", .str "/bin/mcp"), ("args", .arr [])])])])]
        "fe" ⟨"desktop", "Claude Desktop", "cfg"⟩
        ⟨"code", "Claude Code", "claude.json"⟩ true) ≠ "Ready" ∧
    statusWarningShown (snapshotResponse (fun _ => false)
        [("cfg", .doc [("mcpServers", .obj [("fe",
            .obj [("command", .str "/bin/mcp"), ("args", .arr [])])])])]
        "fe" ⟨"desktop", "Claude Desktop", "cfg"⟩
        ⟨"code", "Claude Code", "claude.json"⟩ true) = true ∧
    ((snapshotResponse (fun _ => false)
        [("cfg", .doc [("mcpServers", .obj [("fe",
            .obj [("command", .str "/bin/mcp"), ("args", .arr [])])])])]
        "fe" ⟨"desktop", "Claude Desktop", "cfg"⟩
        ⟨"code", "Claude Code", "claude.json"⟩ true).claude_desktop_configured ||
      (snapshotResponse (fun _ => false)
        [("cfg", .doc [("mcpServers", .obj [("fe",
            .obj [("command", .str "/bin/mcp"), ("args", .arr [])])])])]
        "fe" ⟨"desktop", "Claude Desktop", "cfg"⟩
        ⟨"code", "Claude Code", "claude.json"⟩ true).claude_code_configured) =
      true :=
  snapshot_broken_binary (fun _ => false)
    [("cfg", .doc [("mcpServers", .obj [("fe",
        .obj [("command", .str "/bin/mcp"), ("args", .arr [])])])])]
    "fe" ⟨"desktop", "Claude Desktop", "cfg"⟩
    ⟨"code", "Claude Code", "claude.json"⟩
    ⟨"desktop", "Claude Desktop", "cfg"⟩ true
    [("mcpServers", .obj [("fe",
        .obj [("command", .str "/bin/mcp"), ("args", .arr [])])])]
    ⟨"/bin/mcp", []⟩ (Or.inl rfl) rfl rfl rfl

/-- Claim C2: the whole-system configured value the status panel shows for
the Claude item is true exactly when some host target is configured and the
server binary exists, and the configured-but-broken case surfaces the
distinct warning condition instead (true exactly when some target is
configured and the binary is missing). -/
theorem claude_configured_exposed (s : StatusResponse) :
    (claudeItemOk s = true ↔
      ((s.claude_desktop_configured = true ∨ s.claude_code_configured = true) ∧
        s.mcp_server_exists = true)) ∧
    (statusWarningShown s = true ↔
      ((s.claude_desktop_configured = true ∨ s.claude_code_configured = true) ∧
        s.mcp_server_exists = false)) := by
  obtain ⟨d, c, e, tok⟩ := s
  cases d <;> cases c <;> cases e <;> cases tok <;> decide

/-- Claim C9 counterexample: with desktop configured, the binary present and
the token set but the SEC email unset, the legacy readiness predicate of
`App.svelte` is false while the current status panel's predicate is true, so
the two do not compute the same boolean for every status input. -/
theorem legacy_panel_mismatch :
    legacyAllConfigured ⟨true || false, true, true, false⟩ ≠
      allConfigured ⟨true, false, true, true⟩ := by
  decide

/-- Claim C9 (amended): with `claude_configured` read as the OR of the
per-target flags, the legacy readiness predicate equals the current panel's
predicate AND-ed with `sec_email_set`; in particular the two agree exactly
on inputs where `sec_email_set` holds. -/
theorem legacy_panel_relation (d c e tok sec : Bool) :
    legacyAllConfigured ⟨d || c, e, tok, sec⟩ =
      (allConfigured ⟨d, c, e, tok⟩ && sec) := by
  cases d <;> cases c <;> cases e <;> cases tok <;> cases sec <;> rfl

/-- Claim C8: for a token of length at least ten, the completed validation
run ends in `valid` exactly when the external call returned success, in
`invalid` exactly when it returned failure, and in `error` exactly when the
call threw; the three states render three pairwise distinct user-visible
messages. -/
theorem token_validation_states (token : String) (call : CallOutcome)
    (hlen : 10 ≤ token.length) :
    (debouncedValidate token call = .valid ↔ call = .completed true) ∧
    (debouncedValidate token call = .invalid ↔ call = .completed false) ∧
    (debouncedValidate token call = .error ↔ call = .threw) ∧
    validationMsg .valid ≠ validationMsg .invalid ∧
    validationMsg .valid ≠ validationMsg .error ∧
    validationMsg .invalid ≠ validationMsg .error ∧
    (validationMsg .valid).isSome = true ∧
    (validationMsg .invalid).isSome = true ∧
    (validationMsg .error).isSome = true := by
  have hguard : ¬ (token = "" ∨ token.length < 10) := by
    rintro (rfl | hlt)
    · exact absurd hlen (by decide)
    · omega
  refine ⟨?_, ?_, ?_, by decide, by decide, by decide, by decide, by decide,
    by decide⟩ <;>
    · simp only [debouncedValidate, if_neg hguard]
      cases call with
      | completed b => cases b <;> simp
      | threw => simp

/-- Witness for claim C8 at a ten-character token whose validation call
throws. -/
theorem token_validation_states_witness :
    (debouncedValidate "abcdefghij" .threw = .valid ↔
      CallOutcome.threw = .completed true) ∧
    (debouncedValidate "abcdefghij" .threw = .invalid ↔
      CallOutcome.threw = .completed false) ∧
    (debouncedValidate "abcdefghij" .threw = .error ↔
      CallOutcome.threw = .threw) ∧
    validationMsg .valid ≠ validationMsg .invalid ∧
    validationMsg .valid ≠ validationMsg .error ∧
    validationMsg .invalid ≠ validationMsg .error ∧
    (validationMsg .valid).isSome = true ∧
    (validationMsg .invalid).isSome = true ∧
    (validationMsg .error).isSome = true :=
  token_validation_states "abcdefghij" .threw (by decide)

theorem leadsWith_append (m x : List Char) : leadsWith m (m ++ x) = true := by
  induction m with
  | nil => rfl
  | cons c cs ih => simp [leadsWith, ih]

theorem leadsWith_drop (m : List Char) : ∀ (p : List Char),
    leadsWith m p = true → p = m ++ p.drop m.length := by
  induction m with
  | nil => intro p _; rfl
  | cons c cs ih =>
      intro p hp
      cases p with
      | nil => exact absurd hp (by simp [leadsWith])
      | cons d ds =>
          by_cases hcd : c = d
          · subst hcd
            have hds : leadsWith cs ds = true := by
              simpa [leadsWith] using hp
            have := ih ds hds
            simpa [List.cons_append] using congrArg (c :: ·) this
          · exact absurd hp (by simp [leadsWith, hcd])

theorem takeWhile_all_append (seg rest : List Char)
    (hall : ∀ ch ∈ seg, nonSlash ch = true)
    (hrest : rest = [] ∨ ∃ r, rest = '/' :: r) :
    (seg ++ rest).takeWhile nonSlash = seg := by
  induction seg with
  | nil =>
      rcases hrest with rfl | ⟨r, rfl⟩
      · rfl
      · simp [List.takeWhile_cons, nonSlash]
  | cons a seg ih =>
      have ha : nonSlash a = true := hall a (List.mem_cons_self a seg)
      have ih' := ih (fun ch hc => hall ch (List.mem_cons_of_mem a hc))
      simp [List.takeWhile_cons, ha, ih']

theorem homeMatch_append (marker seg rest : List Char) (hseg : seg ≠ [])
    (hall : ∀ ch ∈ seg, nonSlash ch = true)
    (hrest : rest = [] ∨ ∃ r, rest = '/' :: r) :
    homeMatch marker (marker ++ (seg ++ rest)) = some (marker ++ seg) := by
  simp only [homeMatch, leadsWith_append, if_true, List.drop_left,
    takeWhile_all_append seg rest hall hrest, if_neg hseg]

theorem replaceFirst_lead (pat rep p : List Char)
    (hl : leadsWith pat p = true) (hne : pat ≠ []) :
    replaceFirst pat rep p = rep ++ p.drop pat.length := by
  cases p with
  | nil =>
      cases pat with
      | nil => exact absurd rfl hne
      | cons c cs => exact absurd hl (by simp [leadsWith])
  | cons d ds => simp [replaceFirst, hl]

theorem homeMatch_some_decomp (marker path h : List Char)
    (hm : homeMatch marker path = some h) :
    ∃ seg rest, seg ≠ [] ∧ (∀ ch ∈ seg, nonSlash ch = true) ∧
      path = marker ++ (seg ++ rest) := by
  unfold homeMatch at hm
  by_cases hl : leadsWith marker path = true
  · rw [if_pos hl] at hm
    by_cases hnil : (path.drop marker.length).takeWhile nonSlash = []
    · rw [if_pos hnil] at hm
      exact absurd hm (by simp)
    · refine ⟨(path.drop marker.length).takeWhile nonSlash,
        (path.drop marker.length).dropWhile nonSlash, hnil, ?_, ?_⟩
      · intro ch hc; exact List.mem_takeWhile_imp hc
      · rw [List.takeWhile_append_dropWhile nonSlash (path.drop marker.length)]
        exact leadsWith_drop marker path hl
  · rw [if_neg hl] at hm
    exact absurd hm (by simp)

theorem users_not_lead_of_home (x : List Char) :
    leadsWith usersMarker (homeMarker ++ x) = false := rfl

/-- Claim C10: a path that begins with `/Users/<segment>` or
`/home/<segment>` (a nonempty run of non-slash characters ending the prefix)
is returned with that leading home prefix replaced by `~`, and every other
string is returned unchanged. -/
theorem shortenPath_spec :
    (∀ marker seg rest, (marker = usersMarker ∨ marker = homeMarker) →
      seg ≠ [] → (∀ ch ∈ seg, nonSlash ch = true) →
      (rest = [] ∨ ∃ r, rest = '/' :: r) →
      shortenPath (marker ++ (seg ++ rest)) = '~' :: rest) ∧
    (∀ path, (¬ ∃ marker seg rest,
        (marker = usersMarker ∨ marker = homeMarker) ∧ seg ≠ [] ∧
        (∀ ch ∈ seg, nonSlash ch = true) ∧ path = marker ++ (seg ++ rest)) →
      shortenPath path = path) := by
  constructor
  · intro marker seg rest hmk hseg hall hrest
    have hmm := homeMatch_append marker seg rest hseg hall hrest
    have hlead : leadsWith (marker ++ seg) (marker ++ (seg ++ rest)) = true := by
      rw [← List.append_assoc]
      exact leadsWith_append (marker ++ seg) rest
    have hmarker_ne : marker ≠ [] := by
      rcases hmk with rfl | rfl <;> simp [usersMarker, homeMarker]
    have hpatne : marker ++ seg ≠ [] := by
      simp [hmarker_ne]
    have hdrop : (marker ++ (seg ++ rest)).drop (marker ++ seg).length = rest := by
      rw [← List.append_assoc]
      exact List.drop_left (marker ++ seg) rest
    have hrepl : replaceFirst (marker ++ seg) ['~'] (marker ++ (seg ++ rest)) =
        '~' :: rest := by
      rw [replaceFirst_lead (marker ++ seg) ['~'] _ hlead hpatne, hdrop]
      rfl
    rcases hmk with rfl | rfl
    · unfold shortenPath
      rw [hmm]
      exact hrepl
    · unfold shortenPath
      rw [show homeMatch usersMarker (homeMarker ++ (seg ++ rest)) = none from by
        unfold homeMatch
        rw [users_not_lead_of_home (seg ++ rest)]
        simp]
      rw [hmm]
      exact hrepl
  · intro path hno
    cases hm1 : homeMatch usersMarker path with
    | some h =>
        obtain ⟨seg, rest, hne, hall, heq⟩ :=
          homeMatch_some_decomp usersMarker path h hm1
        exact absurd ⟨usersMarker, seg, rest, Or.inl rfl, hne, hall, heq⟩ hno
    | none =>
        cases hm2 : homeMatch homeMarker path with
        | some h =>
            obtain ⟨seg, rest, hne, hall, heq⟩ :=
              homeMatch_some_decomp homeMarker path h hm2
            exact absurd ⟨homeMarker, seg, rest, Or.inr rfl, hne, hall, heq⟩ hno
        | none => simp [shortenPath, hm1, hm2]

/-- Witness for claim C10: `/Users/alice/x` is shortened to `~/x`. -/
theorem shortenPath_spec_witness :
    shortenPath "/Users/alice/x".toList = "~/x".toList := by
  have h := shortenPath_spec.1 usersMarker "alice".toList "/x".toList
    (Or.inl rfl) (by decide) (by decide) (Or.inr ⟨"x".toList, rfl⟩)
  exact h
